import Mathlib

/-!
# Board-support utilities of the blink_led firmware (sw/bsp/utils.cc, sw/blink_led/src/main.cc)

A shallow embedding of the firmware's board-support layer.

* Machine integers are natural numbers; `uint32_t` arithmetic is reduced modulo `2 ^ 32`
  where the C++ code can wrap.  A `char` is its 8-bit pattern.
* The hardware is a record `Hw`: the GPIO state register, the number of reads of the UART
  `tx_busy` register made so far, and the log of register accesses in program order.
* The UART is an input of the model: `busy i` is the word returned by the `i`-th read of
  `tx_busy` (counting from zero).
* A loop that may spin forever takes a bound `fuel` on the number of times its condition is
  evaluated.  `Run.ret` is a call that returned; `Run.hang` is a call still inside a loop after
  `fuel` evaluations, with the hardware state reached so far.  A call "never returns" when it
  is `Run.hang` for every `fuel`.
-/

namespace Mtkcpu

/-- A C `char`, as its 8-bit pattern. -/
abbrev CChar := Fin 256

/-- One access to a memory-mapped register, as seen on the bus. -/
inductive Event where
  /-- a read of `*(volatile uint32_t*)__tx_busy_addr` that returned `v` -/
  | tx_busy_read (v : Nat)
  /-- the store `*(volatile uint8_t*)__tx_data_addr = c` -/
  | tx_data_write (c : CChar)
  /-- the store `*gpio_state = v` -/
  | gpio_state_write (v : Nat)
  deriving DecidableEq, Repr

/-- Hardware state seen by the firmware. -/
structure Hw where
  /-- value of the 32-bit GPIO state register -/
  gpio_state : Nat
  /-- number of reads of `tx_busy` performed so far -/
  busy_reads : Nat
  /-- register accesses so far, oldest first -/
  trace : List Event
  deriving DecidableEq, Repr

/-- Outcome of running a call with bounded loops. -/
inductive Run (α : Type) where
  /-- the call returned `a` in state `s` -/
  | ret (a : α) (s : Hw)
  /-- the call is still spinning in a loop; `s` is the state reached -/
  | hang (s : Hw)
  deriving DecidableEq, Repr

/-- Sequencing: the continuation runs only if the first call returned. -/
def Run.bind {α β : Type} (r : Run α) (k : α → Hw → Run β) : Run β :=
  match r with
  | .ret a s => k a s
  | .hang s => .hang s

/-- Constants of the build that are not part of utils.cc: the LED bit offsets generated into
`gpio.h` from the hardware description, and the expansion of `__FILE__`. -/
structure Bsp where
  /-- the macro `__led_g_0__o___gpio_state_addr_offset` -/
  led_g : Nat
  /-- the macro `__led_r_0__o___gpio_state_addr_offset` -/
  led_r : Nat
  /-- the characters of `__FILE__` when utils.cc is compiled -/
  file : List CChar

/-- The bytes of an ASCII text. -/
def ascii (t : String) : List CChar := t.toList.map fun ch => Fin.ofNat ch.toNat

/-- A string literal in memory: its characters followed by the terminating NUL.
`cstr body i` is the byte at `msg + i`. -/
def cstr (body : List CChar) : Nat → CChar := fun i => body.getD i 0

/-- The line terminator `'\n'`. -/
def newline : CChar := 10

/-- The macro `CYC_PER_INSTR`, defined as 10. -/
def CYC_PER_INSTR : Nat := 10

/-- The constant `constexpr uint32_t instr_per_ms = 1000 / CYC_PER_INSTR;` -/
def instr_per_ms : Nat := 1000 / CYC_PER_INSTR

/-- The loop `while (num_instr) { num_instr--; }` of `sleep`, started with the counter at the
argument: the values stored to `num_instr` by the successive iterations. -/
def sleep_loop : Nat → List Nat
  | 0 => []
  | num_instr + 1 => num_instr :: sleep_loop num_instr

/-- Function `void sleep(uint32_t ms)`: the counter is `instr_per_ms * ms` in `uint32_t` arithmetic.
The result lists the counter value after each iteration of the loop; its length is the
number of iterations performed before `sleep` returns. -/
def sleep (ms : Nat) : List Nat :=
  sleep_loop ((instr_per_ms * ms) % 2 ^ 32)

/-- Function `void uart_putc(char c)`: `while(*tx_busy);` then `*tx_data = c`. -/
def uart_putc (busy : Nat → Nat) : Nat → CChar → Hw → Run Unit
  | 0, _, s => .hang s
  | fuel + 1, c, s =>
    let v := busy s.busy_reads
    let s1 : Hw := { s with busy_reads := s.busy_reads + 1,
                            trace := s.trace ++ [.tx_busy_read v] }
    if v ≠ 0 then uart_putc busy fuel c s1
    else .ret () { s1 with trace := s1.trace ++ [.tx_data_write c] }

/-- The loop `while(c = *(msg++)) { uart_putc(c); }` of `print`; `i` is how far `msg` has
advanced and the first argument bounds the evaluations of the loop condition. -/
def print_loop (busy : Nat → Nat) (fuel : Nat) : Nat → (Nat → CChar) → Nat → Hw → Run Unit
  | 0, _, _, s => .hang s
  | k + 1, msg, i, s =>
    let c := msg i
    if c ≠ 0 then
      (uart_putc busy fuel c s).bind fun _ s1 => print_loop busy fuel k msg (i + 1) s1
    else .ret () s

/-- Function `void print(const char* msg)`; `msg i` is the byte at `msg + i`. -/
def print (busy : Nat → Nat) (fuel : Nat) (msg : Nat → CChar) (s : Hw) : Run Unit :=
  (print_loop busy fuel fuel msg 0 s).bind fun _ s1 => uart_putc busy fuel newline s1

/-- The loop `while(true) {}`. -/
def halt_forever : Nat → Hw → Run Unit
  | 0, s => .hang s
  | fuel + 1, s => halt_forever fuel s

/-- Function `static void _assert(int x, const char *msg)`: if `!x`, print `msg` and loop
forever. -/
def _assert (busy : Nat → Nat) (fuel : Nat) (x : Int) (msg : Nat → CChar) (s : Hw) : Run Unit :=
  if x = 0 then
    (print busy fuel msg s).bind fun _ s1 => halt_forever fuel s1
  else .ret () s

/-- The text `_FILE_LOCATION " assertion failed: " #x` that `ASSERT(zero_offset < 32)` on
line 50 of utils.cc passes to `_assert`. -/
def assert_text (cfg : Bsp) : List CChar :=
  cfg.file ++ ascii ":50 assertion failed: zero_offset < 32"

/-- Function `static inline uint32_t all_ones_but_one(uint32_t zero_offset)`.  The `int` value
`1 << zero_offset` is converted to `uint32_t` for the exclusive or, that is reduced
modulo `2 ^ 32`. -/
def all_ones_but_one (cfg : Bsp) (busy : Nat → Nat) (fuel : Nat) (zero_offset : Nat) (s : Hw) :
    Run Nat :=
  (_assert busy fuel (if zero_offset < 32 then 1 else 0) (cstr (assert_text cfg)) s).bind
    fun _ s1 => .ret (0xffffffff ^^^ ((1 <<< zero_offset) % 2 ^ 32)) s1

/-- Function `void gpio_set_state(uint32_t offset, bool high)`: read the register, mask the
bit out, or the new bit in, store.  The `int` value `(high ? 1 : 0) << offset` is converted
to `uint32_t` for the inclusive or.  `all_ones_but_one` does not access the register, so
the value read is the same whether the read comes before or after that call. -/
def gpio_set_state (cfg : Bsp) (busy : Nat → Nat) (fuel : Nat) (offset : Nat) (high : Bool)
    (s : Hw) : Run Unit :=
  (all_ones_but_one cfg busy fuel offset s).bind fun mask s1 =>
    let old_value_masked := s1.gpio_state &&& mask
    let v := old_value_masked ||| (((if high then 1 else 0) <<< offset) % 2 ^ 32)
    .ret () { s1 with gpio_state := v, trace := s1.trace ++ [.gpio_state_write v] }

/-- Function `void gpio_on(uint32_t offset)`. -/
def gpio_on (cfg : Bsp) (busy : Nat → Nat) (fuel : Nat) (offset : Nat) (s : Hw) : Run Unit :=
  gpio_set_state cfg busy fuel offset true s

/-- Function `void gpio_off(uint32_t offset)`. -/
def gpio_off (cfg : Bsp) (busy : Nat → Nat) (fuel : Nat) (offset : Nat) (s : Hw) : Run Unit :=
  gpio_set_state cfg busy fuel offset false s

/-- Function `void enable_green_led()`. -/
def enable_green_led (cfg : Bsp) (busy : Nat → Nat) (fuel : Nat) (s : Hw) : Run Unit :=
  gpio_on cfg busy fuel cfg.led_g s

/-- Function `void disable_green_led()`. -/
def disable_green_led (cfg : Bsp) (busy : Nat → Nat) (fuel : Nat) (s : Hw) : Run Unit :=
  gpio_off cfg busy fuel cfg.led_g s

/-- Function `void enable_red_led()`. -/
def enable_red_led (cfg : Bsp) (busy : Nat → Nat) (fuel : Nat) (s : Hw) : Run Unit :=
  gpio_on cfg busy fuel cfg.led_r s

/-- Function `void disable_red_led()`. -/
def disable_red_led (cfg : Bsp) (busy : Nat → Nat) (fuel : Nat) (s : Hw) : Run Unit :=
  gpio_off cfg busy fuel cfg.led_r s

/-- The calls that `main` makes. -/
inductive Call where
  | enable_green_led
  | disable_red_led
  | enable_red_led
  | disable_green_led
  | sleep (ms : Nat)
  deriving DecidableEq, Repr

/-- The local `auto sleep_time_ms = 1000;` of `main`. -/
def sleep_time_ms : Nat := 1000

/-- The call at position `pc` of the body of `while(true)` in `main`; the body has six calls
and wraps around. -/
def main_call (pc : Nat) : Call :=
  match pc % 6 with
  | 0 => .enable_green_led
  | 1 => .disable_red_led
  | 2 => .sleep sleep_time_ms
  | 3 => .enable_red_led
  | 4 => .disable_green_led
  | _ => .sleep sleep_time_ms

/-- Effect of one call on the hardware.  `sleep` touches no register; it returns once its
countdown, a finite list, is over. -/
def exec_call (cfg : Bsp) (busy : Nat → Nat) (fuel : Nat) (c : Call) (s : Hw) : Run Unit :=
  match c with
  | .enable_green_led => enable_green_led cfg busy fuel s
  | .disable_red_led => disable_red_led cfg busy fuel s
  | .enable_red_led => enable_red_led cfg busy fuel s
  | .disable_green_led => disable_green_led cfg busy fuel s
  | .sleep ms => let _countdown := sleep ms; .ret () s

/-- Control state of `main`: the position of the next call in the loop body, and the
hardware. -/
structure MainState where
  pc : Nat
  hw : Hw
  deriving DecidableEq, Repr

/-- One step of `main`: perform the call at `pc` and move to the next one, wrapping at the
end of the loop body.  `none` when the call does not return. -/
def main_step (cfg : Bsp) (busy : Nat → Nat) (fuel : Nat) (st : MainState) : Option MainState :=
  match exec_call cfg busy fuel (main_call st.pc) st.hw with
  | .ret _ s1 => some { pc := (st.pc + 1) % 6, hw := s1 }
  | .hang _ => none

/-- The state of `main` after `n` calls, starting at the top of the loop. -/
def main_run (cfg : Bsp) (busy : Nat → Nat) (fuel : Nat) : Nat → Hw → Option MainState
  | 0, s => some { pc := 0, hw := s }
  | n + 1, s => (main_run cfg busy fuel n s).bind (main_step cfg busy fuel)

/-- The bytes stored to `tx_data` in a log of register accesses, in order. -/
def tx_bytes : List Event → List CChar
  | [] => []
  | .tx_data_write c :: es => c :: tx_bytes es
  | _ :: es => tx_bytes es

/-- The values stored to the GPIO state register in a log of register accesses. -/
def gpio_writes : List Event → List Nat
  | [] => []
  | .gpio_state_write v :: es => v :: gpio_writes es
  | _ :: es => gpio_writes es

/-- No store to `tx_data` in the log is made without a `tx_busy` read returning zero right
before it; `prev` is the access preceding the log. -/
def writes_guarded (prev : Option Event) : List Event → Bool
  | [] => true
  | .tx_data_write c :: es =>
    decide (prev = some (.tx_busy_read 0)) && writes_guarded (some (.tx_data_write c)) es
  | e :: es => writes_guarded (some e) es

/-- The UART always becomes ready again: after any read of `tx_busy` a later read returns
zero. -/
def EventuallyReady (busy : Nat → Nat) : Prop := ∀ k, ∃ j, k ≤ j ∧ busy j = 0

/-- The memory at `msg` holds a C string whose body is the `n` bytes before the first NUL. -/
def NulTerminated (msg : Nat → CChar) (n : Nat) : Prop := msg n = 0 ∧ ∀ i, i < n → msg i ≠ 0

/-- The body of the string at `msg`, given its length. -/
def body (msg : Nat → CChar) (n : Nat) : List CChar := (List.range n).map msg

/-- A UART whose `tx_busy` reads alternate busy, ready, busy, ready, ... -/
def busy_alternating : Nat → Nat := fun i => (i + 1) % 2

/-- A UART whose `tx_busy` register never clears. -/
def busy_stuck : Nat → Nat := fun _ => 1

/-- A board with the green LED on bit 0 and the red LED on bit 1. -/
def demo_bsp : Bsp := { led_g := 0, led_r := 1, file := ascii "utils.cc" }

/-- A hardware state with GPIO register `w`, before any UART access. -/
def hw0 (w : Nat) : Hw := { gpio_state := w, busy_reads := 0, trace := [] }

/-- The hardware state carried by an outcome. -/
def Run.state {α : Type} : Run α → Hw
  | .ret _ s => s
  | .hang s => s

/-- The log of `k` successive reads of `tx_busy`, the first being read number `start`. -/
def spin_reads (busy : Nat → Nat) : Nat → Nat → List Event
  | _, 0 => []
  | start, k + 1 => .tx_busy_read (busy start) :: spin_reads busy (start + 1) k

/-- Between the states `s` and `s1` the firmware stored exactly `bytes` to `tx_data`, each
store coming right after a read of `tx_busy` that returned zero, and made no store to the
GPIO register, whose value is unchanged. -/
def Sent (s s1 : Hw) (bytes : List CChar) : Prop :=
  s1.gpio_state = s.gpio_state ∧
  ∃ evs, s1.trace = s.trace ++ evs ∧ tx_bytes evs = bytes ∧ gpio_writes evs = [] ∧
    ∀ prev, writes_guarded prev evs = true

/-- The green LED is on and the red LED is off in the register value `w`. -/
def GREEN_ON_RED_OFF (cfg : Bsp) (w : Nat) : Prop :=
  w.testBit cfg.led_g = true ∧ w.testBit cfg.led_r = false

/-- The red LED is on and the green LED is off in the register value `w`. -/
def RED_ON_GREEN_OFF (cfg : Bsp) (w : Nat) : Prop :=
  w.testBit cfg.led_g = false ∧ w.testBit cfg.led_r = true

/-! ## The GPIO state register -/

theorem one_shiftLeft_mod (o : Nat) (ho : o < 32) : (1 <<< o) % 2 ^ 32 = 2 ^ o := by
  rw [Nat.one_shiftLeft]
  exact Nat.mod_eq_of_lt (Nat.pow_lt_pow_right (by decide) ho)

theorem mask_testBit (o i : Nat) (ho : o < 32) :
    (0xffffffff ^^^ ((1 <<< o) % 2 ^ 32)).testBit i = (decide (i < 32) && !decide (i = o)) := by
  have h2 : (0xffffffff : Nat) = 2 ^ 32 - 1 := by norm_num
  rw [one_shiftLeft_mod o ho, h2, Nat.testBit_xor, Nat.testBit_two_pow_sub_one,
    Nat.testBit_two_pow]
  clear h2
  by_cases hio : o = i
  · subst hio
    simp [ho]
  · have hio2 : ¬ i = o := fun h => hio h.symm
    simp [hio, hio2]

theorem newbit_testBit (o i : Nat) (high : Bool) (ho : o < 32) :
    ((((if high then 1 else 0) : Nat) <<< o) % 2 ^ 32).testBit i = (high && decide (i = o)) := by
  cases high
  · simp
  · simp only [if_true, one_shiftLeft_mod o ho, Nat.testBit_two_pow, Bool.true_and]
    by_cases hio : o = i
    · subst hio; simp
    · have hio2 : ¬ i = o := fun h => hio h.symm
      simp [hio, hio2]

theorem lt_of_testBit_high (v : Nat) (h : ∀ i, 32 ≤ i → v.testBit i = false) : v < 2 ^ 32 := by
  by_contra hge
  push_neg at hge
  obtain ⟨i, hi, hb⟩ := Nat.ge_two_pow_implies_high_bit_true hge
  rw [h i hi] at hb
  exact Bool.noConfusion hb

theorem testBit_high_of_lt (w i : Nat) (hw : w < 2 ^ 32) (hi : 32 ≤ i) : w.testBit i = false :=
  Nat.testBit_lt_two_pow (lt_of_lt_of_le hw (Nat.pow_le_pow_right (by decide) hi))

/-- With the offset in range the assertion passes whatever the UART does, and the call is one
store to the GPIO register of a 32-bit word that differs from the old one at most in the
bit `o`, which is `high`. -/
theorem gpio_set_state_ret (cfg : Bsp) (busy : Nat → Nat) (fuel o : Nat) (high : Bool) (s : Hw)
    (ho : o < 32) (hw : s.gpio_state < 2 ^ 32) :
    ∃ v, gpio_set_state cfg busy fuel o high s
        = .ret () { s with gpio_state := v, trace := s.trace ++ [.gpio_state_write v] }
      ∧ v < 2 ^ 32
      ∧ ∀ i, v.testBit i = if i = o then high else s.gpio_state.testBit i := by
  have hbit : ∀ i, ((s.gpio_state &&& (0xffffffff ^^^ ((1 <<< o) % 2 ^ 32)))
      ||| ((((if high then 1 else 0) : Nat) <<< o) % 2 ^ 32)).testBit i
      = if i = o then high else s.gpio_state.testBit i := by
    intro i
    rw [Nat.testBit_or, Nat.testBit_and, mask_testBit o i ho, newbit_testBit o i high ho]
    by_cases hio : i = o
    · subst hio; simp [ho]
    · by_cases hi : i < 32
      · simp [hio, hi]
      · simp [hio, hi, testBit_high_of_lt _ i hw (by omega)]
  refine ⟨(s.gpio_state &&& (0xffffffff ^^^ ((1 <<< o) % 2 ^ 32)))
      ||| ((((if high then 1 else 0) : Nat) <<< o) % 2 ^ 32), ?_, ?_, hbit⟩
  · simp only [gpio_set_state, all_ones_but_one, _assert, Run.bind, ho, if_true]
    rfl
  · apply lt_of_testBit_high
    intro i hi
    rw [hbit i]
    have : ¬ i = o := by omega
    simp [this, testBit_high_of_lt _ i hw hi]

theorem tx_bytes_append (a b : List Event) : tx_bytes (a ++ b) = tx_bytes a ++ tx_bytes b := by
  induction a with
  | nil => rfl
  | cons e es ih => cases e <;> simp [tx_bytes, ih]

theorem gpio_writes_append (a b : List Event) :
    gpio_writes (a ++ b) = gpio_writes a ++ gpio_writes b := by
  induction a with
  | nil => rfl
  | cons e es ih => cases e <;> simp [gpio_writes, ih]

/-- Two stores to different bits, in either order. -/
theorem gpio_set_state_two (cfg : Bsp) (busy : Nat → Nat) (fuel a b : Nat) (ha hb : Bool)
    (s : Hw) (hoa : a < 32) (hob : b < 32) (hne : a ≠ b) (hw : s.gpio_state < 2 ^ 32) :
    ∃ s1 s2,
      (gpio_set_state cfg busy fuel a ha s).bind (fun _ => gpio_set_state cfg busy fuel b hb)
        = .ret () s1
      ∧ (gpio_set_state cfg busy fuel b hb s).bind (fun _ => gpio_set_state cfg busy fuel a ha)
        = .ret () s2
      ∧ s1.gpio_state = s2.gpio_state
      ∧ s1.gpio_state.testBit a = ha
      ∧ s1.gpio_state.testBit b = hb
      ∧ ∀ i, i ≠ a → i ≠ b → s1.gpio_state.testBit i = s.gpio_state.testBit i := by
  obtain ⟨va, ea, la, ba⟩ := gpio_set_state_ret cfg busy fuel a ha s hoa hw
  obtain ⟨vb, eb, lb, bb⟩ := gpio_set_state_ret cfg busy fuel b hb s hob hw
  obtain ⟨vab, eab, _, bab⟩ := gpio_set_state_ret cfg busy fuel b hb
    { s with gpio_state := va, trace := s.trace ++ [.gpio_state_write va] } hob la
  obtain ⟨vba, eba, _, bba⟩ := gpio_set_state_ret cfg busy fuel a ha
    { s with gpio_state := vb, trace := s.trace ++ [.gpio_state_write vb] } hoa lb
  have hne2 : b ≠ a := fun h => hne h.symm
  refine ⟨{ gpio_state := vab, busy_reads := s.busy_reads,
            trace := s.trace ++ [.gpio_state_write va] ++ [.gpio_state_write vab] },
          { gpio_state := vba, busy_reads := s.busy_reads,
            trace := s.trace ++ [.gpio_state_write vb] ++ [.gpio_state_write vba] },
          ?_, ?_, ?_, ?_, ?_, ?_⟩
  · rw [ea]; exact eab
  · rw [eb]; exact eba
  · apply Nat.eq_of_testBit_eq
    intro i
    show vab.testBit i = vba.testBit i
    rw [bab i, bba i]
    simp only [ba i, bb i]
    by_cases h1 : i = a <;> by_cases h2 : i = b <;> simp [h1, h2]
    · omega
    · subst h1; simp [hne]
    · subst h2; simp [hne2]
  · show vab.testBit a = ha
    rw [bab a]; simp only [ba a]; simp [hne]
  · show vab.testBit b = hb
    rw [bab b]; simp
  · intro i h1 h2
    show vab.testBit i = s.gpio_state.testBit i
    rw [bab i]; simp only [ba i]; simp [h1, h2]

/-- C1. For every 32-bit prior value of the GPIO state register, every offset below 32
(31 included) and every `high`, `gpio_set_state(offset, high)` returns with bit `offset` of
the register equal to `high`; `gpio_on(offset)` returns with the bit set and
`gpio_off(offset)` with the bit cleared. -/
theorem gpio_set_state_sets_bit (cfg : Bsp) (busy : Nat → Nat) (fuel offset : Nat)
    (high : Bool) (s : Hw) (hoff : offset < 32) (hw : s.gpio_state < 2 ^ 32) :
    (∃ s1, gpio_set_state cfg busy fuel offset high s = .ret () s1
        ∧ s1.gpio_state.testBit offset = high)
    ∧ (∃ s1, gpio_on cfg busy fuel offset s = .ret () s1
        ∧ s1.gpio_state.testBit offset = true)
    ∧ (∃ s1, gpio_off cfg busy fuel offset s = .ret () s1
        ∧ s1.gpio_state.testBit offset = false) := by
  refine ⟨?_, ?_, ?_⟩
  · obtain ⟨v, e, _, hb⟩ := gpio_set_state_ret cfg busy fuel offset high s hoff hw
    exact ⟨_, e, by simpa using hb offset⟩
  · obtain ⟨v, e, _, hb⟩ := gpio_set_state_ret cfg busy fuel offset true s hoff hw
    exact ⟨_, e, by simpa using hb offset⟩
  · obtain ⟨v, e, _, hb⟩ := gpio_set_state_ret cfg busy fuel offset false s hoff hw
    exact ⟨_, e, by simpa using hb offset⟩

/-- Instance of C1 at the top bit: offset 31, `high` true, register 0, UART stuck busy. -/
theorem gpio_set_state_sets_bit_witness :
    (31 < 32 ∧ (hw0 0).gpio_state < 2 ^ 32)
    ∧ (∃ s1, gpio_set_state demo_bsp busy_stuck 0 31 true (hw0 0) = .ret () s1
        ∧ s1.gpio_state.testBit 31 = true)
    ∧ (∃ s1, gpio_on demo_bsp busy_stuck 0 31 (hw0 0) = .ret () s1
        ∧ s1.gpio_state.testBit 31 = true)
    ∧ (∃ s1, gpio_off demo_bsp busy_stuck 0 31 (hw0 0) = .ret () s1
        ∧ s1.gpio_state.testBit 31 = false) :=
  ⟨⟨by decide, by decide⟩,
    gpio_set_state_sets_bit demo_bsp busy_stuck 0 31 true (hw0 0) (by decide) (by decide)⟩

/-- C2. For every 32-bit prior value of the GPIO state register, every offset below 32 and
every `high`, `gpio_set_state(offset, high)` returns with every bit other than `offset`
equal to its prior value; the only register access of the call is the store to the GPIO
register, so it reads and writes nothing on the UART. -/
theorem gpio_set_state_frame (cfg : Bsp) (busy : Nat → Nat) (fuel offset : Nat)
    (high : Bool) (s : Hw) (hoff : offset < 32) (hw : s.gpio_state < 2 ^ 32) :
    ∃ s1, gpio_set_state cfg busy fuel offset high s = .ret () s1
      ∧ (∀ i, i ≠ offset → s1.gpio_state.testBit i = s.gpio_state.testBit i)
      ∧ s1.trace = s.trace ++ [.gpio_state_write s1.gpio_state]
      ∧ tx_bytes s1.trace = tx_bytes s.trace
      ∧ s1.busy_reads = s.busy_reads := by
  obtain ⟨v, e, _, hb⟩ := gpio_set_state_ret cfg busy fuel offset high s hoff hw
  refine ⟨_, e, ?_, rfl, ?_, rfl⟩
  · intro i hi
    rw [hb i]; simp [hi]
  · simp [tx_bytes_append, tx_bytes]

/-- Instance of C2: clearing bit 3 of the register `0xffffffff`. -/
theorem gpio_set_state_frame_witness :
    (3 < 32 ∧ (hw0 0xffffffff).gpio_state < 2 ^ 32)
    ∧ ∃ s1, gpio_set_state demo_bsp busy_stuck 0 3 false (hw0 0xffffffff) = .ret () s1
      ∧ (∀ i, i ≠ 3 → s1.gpio_state.testBit i = (hw0 0xffffffff).gpio_state.testBit i)
      ∧ s1.trace = (hw0 0xffffffff).trace ++ [.gpio_state_write s1.gpio_state]
      ∧ tx_bytes s1.trace = tx_bytes (hw0 0xffffffff).trace
      ∧ s1.busy_reads = (hw0 0xffffffff).busy_reads :=
  ⟨⟨by decide, by decide⟩,
    gpio_set_state_frame demo_bsp busy_stuck 0 3 false (hw0 0xffffffff) (by decide) (by decide)⟩

/-- C7. With distinct LED offsets below 32 and any 32-bit prior register value,
`enable_green_led(); disable_red_led();` and `disable_red_led(); enable_green_led();` both
return and leave the same register value, with the green bit 1, the red bit 0 and every
other bit unchanged; likewise for `enable_red_led` and `disable_green_led` with the colours
exchanged. -/
theorem led_calls_commute (cfg : Bsp) (busy : Nat → Nat) (fuel : Nat) (s : Hw)
    (hg : cfg.led_g < 32) (hr : cfg.led_r < 32) (hne : cfg.led_g ≠ cfg.led_r)
    (hw : s.gpio_state < 2 ^ 32) :
    (∃ s1 s2,
      (enable_green_led cfg busy fuel s).bind (fun _ => disable_red_led cfg busy fuel)
        = .ret () s1
      ∧ (disable_red_led cfg busy fuel s).bind (fun _ => enable_green_led cfg busy fuel)
        = .ret () s2
      ∧ s1.gpio_state = s2.gpio_state
      ∧ s1.gpio_state.testBit cfg.led_g = true
      ∧ s1.gpio_state.testBit cfg.led_r = false
      ∧ ∀ i, i ≠ cfg.led_g → i ≠ cfg.led_r →
          s1.gpio_state.testBit i = s.gpio_state.testBit i)
    ∧ (∃ s1 s2,
      (enable_red_led cfg busy fuel s).bind (fun _ => disable_green_led cfg busy fuel)
        = .ret () s1
      ∧ (disable_green_led cfg busy fuel s).bind (fun _ => enable_red_led cfg busy fuel)
        = .ret () s2
      ∧ s1.gpio_state = s2.gpio_state
      ∧ s1.gpio_state.testBit cfg.led_r = true
      ∧ s1.gpio_state.testBit cfg.led_g = false
      ∧ ∀ i, i ≠ cfg.led_r → i ≠ cfg.led_g →
          s1.gpio_state.testBit i = s.gpio_state.testBit i) :=
  ⟨gpio_set_state_two cfg busy fuel cfg.led_g cfg.led_r true false s hg hr hne hw,
   gpio_set_state_two cfg busy fuel cfg.led_r cfg.led_g true false s hr hg
     (fun h => hne h.symm) hw⟩

/-- Instance of C7 on a board with green on bit 0 and red on bit 1, starting with only the
red LED on. -/
theorem led_calls_commute_witness :
    (demo_bsp.led_g < 32 ∧ demo_bsp.led_r < 32 ∧ demo_bsp.led_g ≠ demo_bsp.led_r
      ∧ (hw0 2).gpio_state < 2 ^ 32)
    ∧ (∃ s1 s2,
      (enable_green_led demo_bsp busy_stuck 0 (hw0 2)).bind
          (fun _ => disable_red_led demo_bsp busy_stuck 0) = .ret () s1
      ∧ (disable_red_led demo_bsp busy_stuck 0 (hw0 2)).bind
          (fun _ => enable_green_led demo_bsp busy_stuck 0) = .ret () s2
      ∧ s1.gpio_state = s2.gpio_state
      ∧ s1.gpio_state.testBit demo_bsp.led_g = true
      ∧ s1.gpio_state.testBit demo_bsp.led_r = false
      ∧ ∀ i, i ≠ demo_bsp.led_g → i ≠ demo_bsp.led_r →
          s1.gpio_state.testBit i = (hw0 2).gpio_state.testBit i)
    ∧ (∃ s1 s2,
      (enable_red_led demo_bsp busy_stuck 0 (hw0 2)).bind
          (fun _ => disable_green_led demo_bsp busy_stuck 0) = .ret () s1
      ∧ (disable_green_led demo_bsp busy_stuck 0 (hw0 2)).bind
          (fun _ => enable_red_led demo_bsp busy_stuck 0) = .ret () s2
      ∧ s1.gpio_state = s2.gpio_state
      ∧ s1.gpio_state.testBit demo_bsp.led_r = true
      ∧ s1.gpio_state.testBit demo_bsp.led_g = false
      ∧ ∀ i, i ≠ demo_bsp.led_r → i ≠ demo_bsp.led_g →
          s1.gpio_state.testBit i = (hw0 2).gpio_state.testBit i) :=
  ⟨⟨by decide, by decide, by decide, by decide⟩,
    led_calls_commute demo_bsp busy_stuck 0 (hw0 2) (by decide) (by decide) (by decide)
      (by decide)⟩

/-! ## The busy-wait delay -/

theorem sleep_loop_eq (c : Nat) : sleep_loop c = (List.range c).reverse := by
  induction c with
  | zero => rfl
  | succ n ih => rw [sleep_loop, ih, List.range_succ, List.reverse_append]; rfl

theorem sleep_loop_length (c : Nat) : (sleep_loop c).length = c := by
  simp [sleep_loop_eq]

theorem sleep_loop_getElem? (c i : Nat) (hi : i < c) :
    (sleep_loop c)[i]? = some (c - (i + 1)) := by
  induction c generalizing i with
  | zero => omega
  | succ n ih =>
    cases i with
    | zero => simp [sleep_loop]
    | succ j =>
      have hj : j < n := by omega
      simp only [sleep_loop, List.getElem?_cons_succ, ih j hj]
      congr 1
      omega

theorem instr_per_ms_eq : instr_per_ms = 100 := by decide

theorem sleep_length (ms : Nat) : (sleep ms).length = (100 * ms) % 2 ^ 32 := by
  rw [sleep, sleep_loop_length, instr_per_ms_eq]

/-- C6, counterexample. `sleep(2^30)` has a positive 32-bit argument and performs no
iteration at all, not `2^30 * 100` of them: the counter `100 * 2^30` is `0` in 32-bit
arithmetic. -/
theorem sleep_overflow_counterexample :
    0 < 2 ^ 30 ∧ 2 ^ 30 < 2 ^ 32 ∧ (sleep (2 ^ 30)).length = 0
    ∧ ¬ (0 < (sleep (2 ^ 30)).length ∧ (sleep (2 ^ 30)).length = 2 ^ 30 * (1000 / CYC_PER_INSTR)) := by
  have h : (sleep (2 ^ 30)).length = 0 := by rw [sleep_length]; norm_num
  refine ⟨by norm_num, by norm_num, h, ?_⟩
  rw [h]
  exact fun hc => absurd hc.1 (lt_irrefl 0)

/-- C6, amended. `sleep(0)` returns after zero iterations, and for every `n > 0` whose
product `n * (1000 / CYC_PER_INSTR) = n * 100` fits in 32 bits, `sleep(n)` returns after a
strictly positive number of iterations equal to `n * 100`, iteration `i` (counting from 0)
leaving the counter at `n * 100 - (i + 1)`: it goes down by one each time and ends at 0. -/
theorem sleep_countdown (n : Nat) (hpos : 0 < n) (hfit : n * (1000 / CYC_PER_INSTR) < 2 ^ 32) :
    (sleep 0).length = 0
    ∧ 0 < (sleep n).length
    ∧ (sleep n).length = n * (1000 / CYC_PER_INSTR)
    ∧ n * (1000 / CYC_PER_INSTR) = n * 100
    ∧ ∀ i, i < n * 100 → (sleep n)[i]? = some (n * 100 - (i + 1)) := by
  have hc : (1000 / CYC_PER_INSTR : Nat) = 100 := by decide
  rw [hc] at hfit ⊢
  have hm : (instr_per_ms * n) % 2 ^ 32 = n * 100 := by
    rw [instr_per_ms_eq, Nat.mul_comm]
    exact Nat.mod_eq_of_lt hfit
  have hl : (sleep n).length = n * 100 := by rw [sleep, sleep_loop_length, hm]
  refine ⟨rfl, ?_, hl, rfl, ?_⟩
  · rw [hl]; omega
  · intro i hi
    rw [sleep, hm]
    exact sleep_loop_getElem? _ i hi

/-- Instance of the amended C6: `sleep(1)` performs 100 iterations. -/
theorem sleep_countdown_witness :
    (0 < 1 ∧ 1 * (1000 / CYC_PER_INSTR) < 2 ^ 32)
    ∧ (sleep 0).length = 0
    ∧ 0 < (sleep 1).length
    ∧ (sleep 1).length = 1 * (1000 / CYC_PER_INSTR)
    ∧ 1 * (1000 / CYC_PER_INSTR) = 1 * 100
    ∧ ∀ i, i < 1 * 100 → (sleep 1)[i]? = some (1 * 100 - (i + 1)) :=
  ⟨⟨by decide, by decide⟩, sleep_countdown 1 (by decide) (by decide)⟩

/-- C10. For every `ms`, `sleep(ms)` returns (its countdown is a finite list) after exactly
`(100 * ms) mod 2^32` iterations; the count is not monotone in `ms`, and `ms = 2^30 > 0`
gives zero iterations. -/
theorem sleep_iterations_mod :
    (∀ ms, (sleep ms).length = (100 * ms) % 2 ^ 32)
    ∧ (∃ a b, a < b ∧ b < 2 ^ 32 ∧ (sleep b).length < (sleep a).length)
    ∧ (0 < 2 ^ 30 ∧ 2 ^ 30 < 2 ^ 32 ∧ (sleep (2 ^ 30)).length = 0) := by
  refine ⟨sleep_length, ⟨1, 2 ^ 30, by norm_num, by norm_num, ?_⟩, by norm_num, by norm_num, ?_⟩
  · rw [sleep_length, sleep_length]; norm_num
  · rw [sleep_length]; norm_num

/-! ## The UART -/

@[simp] theorem Run.bind_ret {α β : Type} (a : α) (s : Hw) (k : α → Hw → Run β) :
    (Run.ret a s).bind k = k a s := rfl

@[simp] theorem Run.bind_hang {α β : Type} (s : Hw) (k : α → Hw → Run β) :
    (Run.hang s : Run α).bind k = .hang s := rfl

theorem tx_bytes_spin_reads (busy : Nat → Nat) (r k : Nat) : tx_bytes (spin_reads busy r k) = [] := by
  induction k generalizing r with
  | zero => rfl
  | succ n ih => simp [spin_reads, tx_bytes, ih]

theorem gpio_writes_spin_reads (busy : Nat → Nat) (r k : Nat) :
    gpio_writes (spin_reads busy r k) = [] := by
  induction k generalizing r with
  | zero => rfl
  | succ n ih => simp [spin_reads, gpio_writes, ih]

theorem writes_guarded_append (a b : List Event) (p : Option Event)
    (ha : writes_guarded p a = true) (hb : ∀ q, writes_guarded q b = true) :
    writes_guarded p (a ++ b) = true := by
  induction a generalizing p with
  | nil => exact hb p
  | cons e es ih =>
    cases e with
    | tx_busy_read v => exact ih _ ha
    | gpio_state_write v => exact ih _ ha
    | tx_data_write c =>
      simp only [List.cons_append, writes_guarded, Bool.and_eq_true] at ha ⊢
      exact ⟨ha.1, ih _ ha.2⟩

theorem Sent.refl (s : Hw) : Sent s s [] :=
  ⟨rfl, [], by simp, rfl, rfl, fun _ => rfl⟩

theorem Sent.trans {s s1 s2 : Hw} {b1 b2 : List CChar} (h1 : Sent s s1 b1)
    (h2 : Sent s1 s2 b2) : Sent s s2 (b1 ++ b2) := by
  obtain ⟨g1, e1, t1, x1, w1, u1⟩ := h1
  obtain ⟨g2, e2, t2, x2, w2, u2⟩ := h2
  refine ⟨g2.trans g1, e1 ++ e2, ?_, ?_, ?_, ?_⟩
  · rw [t2, t1, List.append_assoc]
  · rw [tx_bytes_append, x1, x2]
  · rw [gpio_writes_append, w1, w2]; rfl
  · intro p
    exact writes_guarded_append e1 e2 p (u1 p) u2

theorem uart_putc_spin (busy : Nat → Nat) (k fuel : Nat) (c : CChar) (s : Hw)
    (h : ∀ i, i < k → busy (s.busy_reads + i) ≠ 0) :
    uart_putc busy (k + fuel) c s
      = uart_putc busy fuel c { s with busy_reads := s.busy_reads + k,
                                       trace := s.trace ++ spin_reads busy s.busy_reads k } := by
  induction k generalizing s with
  | zero => simp [spin_reads]
  | succ n ih =>
    have h0 : busy s.busy_reads ≠ 0 := by simpa using h 0 (Nat.succ_pos n)
    have hn : ∀ i, i < n → busy (s.busy_reads + 1 + i) ≠ 0 := by
      intro i hi
      have := h (i + 1) (by omega)
      rwa [show s.busy_reads + (i + 1) = s.busy_reads + 1 + i by omega] at this
    rw [show n + 1 + fuel = (n + fuel) + 1 by omega, uart_putc]
    simp only [h0, ne_eq, not_false_eq_true, if_true]
    rw [ih _ hn]
    simp [spin_reads, Nat.add_assoc, Nat.add_comm 1 n]

theorem uart_putc_ready (busy : Nat → Nat) (k fuel : Nat) (c : CChar) (s : Hw)
    (h : ∀ i, i < k → busy (s.busy_reads + i) ≠ 0) (hz : busy (s.busy_reads + k) = 0)
    (hf : k < fuel) :
    uart_putc busy fuel c s
      = .ret () { gpio_state := s.gpio_state, busy_reads := s.busy_reads + k + 1,
                  trace := s.trace ++ spin_reads busy s.busy_reads k
                    ++ [.tx_busy_read 0, .tx_data_write c] } := by
  obtain ⟨m, rfl⟩ : ∃ m, fuel = k + (m + 1) := ⟨fuel - k - 1, by omega⟩
  rw [uart_putc_spin busy k (m + 1) c s h, uart_putc]
  simp [hz]

theorem uart_putc_stuck (busy : Nat → Nat) (fuel : Nat) (c : CChar) (s : Hw)
    (h : ∀ i, i < fuel → busy (s.busy_reads + i) ≠ 0) :
    uart_putc busy fuel c s
      = .hang { gpio_state := s.gpio_state, busy_reads := s.busy_reads + fuel,
                trace := s.trace ++ spin_reads busy s.busy_reads fuel } := by
  have := uart_putc_spin busy fuel 0 c s h
  rw [Nat.add_zero] at this
  rw [this, uart_putc]
theorem Sent.busy_read (s : Hw) (v : Nat) :
    Sent s { s with busy_reads := s.busy_reads + 1, trace := s.trace ++ [.tx_busy_read v] } [] :=
  ⟨rfl, [.tx_busy_read v], rfl, rfl, rfl, fun _ => rfl⟩

/-- Whatever the UART does and however long it is watched, `uart_putc(c)` has either
returned having stored the one byte `c`, or is still polling having stored nothing. -/
theorem uart_putc_outcome (busy : Nat → Nat) (fuel : Nat) (c : CChar) (s : Hw) :
    ∃ s1, (uart_putc busy fuel c s = .ret () s1 ∧ Sent s s1 [c])
      ∨ (uart_putc busy fuel c s = .hang s1 ∧ Sent s s1 []) := by
  induction fuel generalizing s with
  | zero => exact ⟨s, Or.inr ⟨rfl, Sent.refl s⟩⟩
  | succ n ih =>
    by_cases hz : busy s.busy_reads = 0
    · refine ⟨{ gpio_state := s.gpio_state, busy_reads := s.busy_reads + 1,
                trace := s.trace ++ [.tx_busy_read 0] ++ [.tx_data_write c] },
        Or.inl ⟨by rw [uart_putc]; simp only [hz, ne_eq, not_true_eq_false, if_false], ?_⟩⟩
      exact ⟨rfl, [.tx_busy_read 0, .tx_data_write c], by simp, rfl, rfl, fun _ => rfl⟩
    · obtain ⟨s1, h⟩ := ih { s with busy_reads := s.busy_reads + 1,
                                     trace := s.trace ++ [.tx_busy_read (busy s.busy_reads)] }
      have e : uart_putc busy (n + 1) c s = uart_putc busy n c
          { s with busy_reads := s.busy_reads + 1,
                   trace := s.trace ++ [.tx_busy_read (busy s.busy_reads)] } := by
        rw [uart_putc]; simp only [hz, ne_eq, not_false_eq_true, if_true]
      refine ⟨s1, ?_⟩
      rw [e]
      rcases h with ⟨h1, h2⟩ | ⟨h1, h2⟩
      · exact Or.inl ⟨h1, (Sent.busy_read s _).trans h2⟩
      · exact Or.inr ⟨h1, (Sent.busy_read s _).trans h2⟩

/-- On a UART that always becomes ready again, `uart_putc(c)` returns, having stored `c`. -/
theorem uart_putc_returns (busy : Nat → Nat) (hready : EventuallyReady busy) (c : CChar)
    (s : Hw) :
    ∃ F s1, Sent s s1 [c] ∧ ∀ fuel, F ≤ fuel → uart_putc busy fuel c s = .ret () s1 := by
  have hex : ∃ k, busy (s.busy_reads + k) = 0 := by
    obtain ⟨j, hj, hz⟩ := hready s.busy_reads
    exact ⟨j - s.busy_reads, by rwa [Nat.add_sub_cancel' hj]⟩
  have hmin : ∀ i, i < Nat.find hex → busy (s.busy_reads + i) ≠ 0 :=
    fun i hi => Nat.find_min hex hi
  have hret := fun fuel hf => uart_putc_ready busy (Nat.find hex) fuel c s hmin (Nat.find_spec hex) hf
  refine ⟨Nat.find hex + 1, _, ?_, fun fuel hf => hret fuel hf⟩
  obtain ⟨s1, h⟩ := uart_putc_outcome busy (Nat.find hex + 1) c s
  rw [hret _ (Nat.lt_succ_self _)] at h
  rcases h with ⟨h1, h2⟩ | ⟨h1, _⟩
  · cases h1; exact h2
  · cases h1

theorem body_succ (msg : Nat → CChar) (i m : Nat) :
    (List.range (m + 1)).map (fun j => msg (i + j))
      = msg i :: (List.range m).map (fun j => msg (i + 1 + j)) := by
  rw [List.range_succ_eq_map, List.map_cons, List.map_map]
  simp only [Nat.add_zero, List.cons.injEq, true_and]
  apply List.map_congr_left
  intro j _
  simp [Nat.add_assoc, Nat.add_comm 1 j]

/-- However long it is watched, the loop of `print` started at `msg + i` has stored the
first `j` bytes found there, none of which is NUL; and if it is over, the next byte is NUL. -/
theorem print_loop_outcome (busy : Nat → Nat) (fuel k : Nat) (msg : Nat → CChar) (i : Nat)
    (s : Hw) :
    ∃ s1 j, Sent s s1 ((List.range j).map fun l => msg (i + l))
      ∧ (∀ l, l < j → msg (i + l) ≠ 0)
      ∧ ((print_loop busy fuel k msg i s = .ret () s1 ∧ msg (i + j) = 0)
          ∨ print_loop busy fuel k msg i s = .hang s1) := by
  induction k generalizing i s with
  | zero => exact ⟨s, 0, Sent.refl s, fun l hl => absurd hl (Nat.not_lt_zero l), Or.inr rfl⟩
  | succ n ih =>
    by_cases hz : msg i = 0
    · refine ⟨s, 0, Sent.refl s, fun l hl => absurd hl (Nat.not_lt_zero l), Or.inl ⟨?_, hz⟩⟩
      rw [print_loop]; simp only [hz, ne_eq, not_true_eq_false, if_false]
    · have e : print_loop busy fuel (n + 1) msg i s
          = (uart_putc busy fuel (msg i) s).bind
              fun _ s1 => print_loop busy fuel n msg (i + 1) s1 := by
        rw [print_loop]; simp only [hz, ne_eq, not_false_eq_true, if_true]
      rw [e]
      obtain ⟨s1, h⟩ := uart_putc_outcome busy fuel (msg i) s
      rcases h with ⟨h1, h2⟩ | ⟨h1, h2⟩
      · obtain ⟨s2, j, hs, hn, hr⟩ := ih (i + 1) s1
        refine ⟨s2, j + 1, ?_, ?_, ?_⟩
        · rw [body_succ]; exact h2.trans hs
        · intro l hl
          cases l with
          | zero => exact hz
          | succ l' =>
            have := hn l' (by omega)
            rwa [show i + 1 + l' = i + (l' + 1) by omega] at this
        · rw [h1, Run.bind_ret, show i + (j + 1) = i + 1 + j by omega]
          exact hr
      · exact ⟨s1, 0, h2, fun l hl => absurd hl (Nat.not_lt_zero l), Or.inr (by rw [h1]; rfl)⟩
/-- On a UART that always becomes ready again, the loop of `print` started at `msg + i` with
`m` bytes before the NUL returns, having stored those `m` bytes. -/
theorem print_loop_returns (busy : Nat → Nat) (hready : EventuallyReady busy)
    (msg : Nat → CChar) (m i : Nat) (s : Hw)
    (hn : ∀ l, l < m → msg (i + l) ≠ 0) (hz : msg (i + m) = 0) :
    ∃ F s1, Sent s s1 ((List.range m).map fun l => msg (i + l))
      ∧ ∀ fuel k, F ≤ fuel → m < k → print_loop busy fuel k msg i s = .ret () s1 := by
  induction m generalizing i s with
  | zero =>
    refine ⟨0, s, Sent.refl s, ?_⟩
    intro fuel k _ hk
    obtain ⟨k', rfl⟩ : ∃ k', k = k' + 1 := ⟨k - 1, by omega⟩
    rw [print_loop]
    simp only [Nat.add_zero] at hz
    simp only [hz, ne_eq, not_true_eq_false, if_false]
  | succ n ih =>
    have h0 : msg i ≠ 0 := by simpa using hn 0 (Nat.succ_pos n)
    obtain ⟨F1, s1, hs1, hr1⟩ := uart_putc_returns busy hready (msg i) s
    have hn' : ∀ l, l < n → msg (i + 1 + l) ≠ 0 := by
      intro l hl
      have := hn (l + 1) (by omega)
      rwa [show i + (l + 1) = i + 1 + l by omega] at this
    have hz' : msg (i + 1 + n) = 0 := by
      rwa [show i + (n + 1) = i + 1 + n by omega] at hz
    obtain ⟨F2, s2, hs2, hr2⟩ := ih (i + 1) s1 hn' hz'
    refine ⟨max F1 F2, s2, ?_, ?_⟩
    · rw [body_succ]; exact hs1.trans hs2
    · intro fuel k hf hk
      obtain ⟨k', rfl⟩ : ∃ k', k = k' + 1 := ⟨k - 1, by omega⟩
      rw [print_loop]
      simp only [h0, ne_eq, not_false_eq_true, if_true]
      rw [hr1 fuel (le_trans (le_max_left _ _) hf), Run.bind_ret]
      exact hr2 fuel k' (le_trans (le_max_right _ _) hf) (by omega)

theorem body_eq (msg : Nat → CChar) (n : Nat) :
    ((List.range n).map fun l => msg (0 + l)) = body msg n := by
  simp [body]

/-- On a UART that always becomes ready again, `print(msg)` returns, having stored the body
of the message and then the line terminator. -/
theorem print_returns (busy : Nat → Nat) (hready : EventuallyReady busy)
    (msg : Nat → CChar) (n : Nat) (s : Hw) (hmsg : NulTerminated msg n) :
    ∃ F s1, Sent s s1 (body msg n ++ [newline])
      ∧ ∀ fuel, F ≤ fuel → print busy fuel msg s = .ret () s1 := by
  obtain ⟨F1, s1, hs1, hr1⟩ := print_loop_returns busy hready msg n 0 s
    (fun l hl => by simpa using hmsg.2 l hl) (by simpa using hmsg.1)
  obtain ⟨F2, s2, hs2, hr2⟩ := uart_putc_returns busy hready newline s1
  rw [body_eq] at hs1
  refine ⟨max (max F1 F2) (n + 1), s2, hs1.trans hs2, ?_⟩
  intro fuel hf
  have hf1 : F1 ≤ fuel := le_trans (le_trans (le_max_left _ _) (le_max_left _ _)) hf
  have hf2 : F2 ≤ fuel := le_trans (le_trans (le_max_right _ _) (le_max_left _ _)) hf
  have hf3 : n < fuel := lt_of_lt_of_le (Nat.lt_succ_self n) (le_trans (le_max_right _ _) hf)
  rw [print, hr1 fuel fuel hf1 hf3, Run.bind_ret]
  exact hr2 fuel hf2

/-- Whatever the UART does and however long it is watched, `print(msg)` has either returned
having stored the body of the message and the line terminator, or is still running having
stored some leading bytes of the body. -/
theorem print_outcome (busy : Nat → Nat) (fuel : Nat) (msg : Nat → CChar) (s : Hw) :
    ∃ s1 j, (∀ l, l < j → msg l ≠ 0)
      ∧ ((print busy fuel msg s = .ret () s1 ∧ msg j = 0 ∧ Sent s s1 (body msg j ++ [newline]))
        ∨ (print busy fuel msg s = .hang s1 ∧ Sent s s1 (body msg j))) := by
  obtain ⟨s1, j, hs1, hn, hr⟩ := print_loop_outcome busy fuel fuel msg 0 s
  rw [body_eq] at hs1
  have hn' : ∀ l, l < j → msg l ≠ 0 := fun l hl => by simpa using hn l hl
  rcases hr with ⟨hr, hz⟩ | hr
  · obtain ⟨s2, h⟩ := uart_putc_outcome busy fuel newline s1
    rcases h with ⟨h1, h2⟩ | ⟨h1, h2⟩
    · exact ⟨s2, j, hn', Or.inl ⟨by rw [print, hr, Run.bind_ret, h1], by simpa using hz,
        hs1.trans h2⟩⟩
    · refine ⟨s2, j, hn', Or.inr ⟨by rw [print, hr, Run.bind_ret, h1], ?_⟩⟩
      simpa using hs1.trans h2
  · exact ⟨s1, j, hn', Or.inr ⟨by rw [print, hr, Run.bind_hang], hs1⟩⟩

theorem halt_forever_hang (fuel : Nat) (s : Hw) : halt_forever fuel s = .hang s := by
  induction fuel with
  | zero => rfl
  | succ n ih => rw [halt_forever, ih]

theorem body_split (msg : Nat → CChar) (j n : Nat) (h : j ≤ n) :
    ∃ rest, body msg j ++ rest = body msg n := by
  obtain ⟨d, rfl⟩ : ∃ d, n = j + d := ⟨n - j, by omega⟩
  exact ⟨(List.range d).map fun l => msg (j + l), by
    simp [body, List.range_add, List.map_append, List.map_map, Function.comp_def]⟩

theorem body_length (msg : Nat → CChar) (n : Nat) : (body msg n).length = n := by
  simp [body]

/-- A failed assertion never returns and never stores to the GPIO register; what it has
stored to the UART is, at any time, a leading part of the message and line terminator. -/
theorem assert_zero_outcome (busy : Nat → Nat) (fuel : Nat) (msg : Nat → CChar) (n : Nat)
    (s : Hw) (hmsg : NulTerminated msg n) :
    ∃ s1 bytes rest, _assert busy fuel 0 msg s = .hang s1 ∧ Sent s s1 bytes
      ∧ bytes ++ rest = body msg n ++ [newline] := by
  obtain ⟨s1, j, hn, h⟩ := print_outcome busy fuel msg s
  have hjn : j ≤ n := by
    by_contra hlt
    exact hn n (by omega) hmsg.1
  rcases h with ⟨h1, hz, h2⟩ | ⟨h1, h2⟩
  · have hj : j = n := by
      by_contra hne
      exact hmsg.2 j (by omega) hz
    subst hj
    exact ⟨s1, _, [], by simp [_assert, h1, halt_forever_hang], h2, by simp⟩
  · obtain ⟨rest, hrest⟩ := body_split msg j n hjn
    exact ⟨s1, _, rest ++ [newline], by simp [_assert, h1], h2, by
      rw [← List.append_assoc, hrest]⟩

/-- On a UART that always becomes ready again, a failed assertion sends the whole message
and the line terminator and then stays in `while(true) {}`. -/
theorem assert_zero_sends (busy : Nat → Nat) (hready : EventuallyReady busy)
    (msg : Nat → CChar) (n : Nat) (s : Hw) (hmsg : NulTerminated msg n) :
    ∃ F s1, Sent s s1 (body msg n ++ [newline])
      ∧ ∀ fuel, F ≤ fuel →
          print busy fuel msg s = .ret () s1 ∧ _assert busy fuel 0 msg s = .hang s1 := by
  obtain ⟨F, s1, hs, hr⟩ := print_returns busy hready msg n s hmsg
  refine ⟨F, s1, hs, fun fuel hf => ⟨hr fuel hf, ?_⟩⟩
  simp [_assert, hr fuel hf, halt_forever_hang]
theorem cstr_nul (t : List CChar) : cstr t t.length = 0 := by
  simp [cstr, List.getD]

theorem cstr_lt (t : List CChar) (i : Nat) (h : i < t.length) : cstr t i = t[i] := by
  simp [cstr, List.getD, List.getElem?_eq_getElem h]

theorem cstr_nulTerminated (t : List CChar) (h : ∀ c ∈ t, c ≠ 0) :
    NulTerminated (cstr t) t.length := by
  refine ⟨cstr_nul t, fun i hi => ?_⟩
  rw [cstr_lt t i hi]
  exact h _ (List.getElem_mem _)

theorem body_cstr (t : List CChar) : body (cstr t) t.length = t := by
  apply List.ext_getElem
  · simp [body]
  · intro i h1 h2
    simp [body, cstr_lt t i h2]

set_option maxRecDepth 100000 in
theorem ascii_assert_ne_zero :
    ∀ c ∈ ascii ":50 assertion failed: zero_offset < 32", c ≠ 0 := by
  decide

theorem assert_text_ne_zero (cfg : Bsp) (h : ∀ c ∈ cfg.file, c ≠ 0) :
    ∀ c ∈ assert_text cfg, c ≠ 0 := by
  intro c hc
  rcases List.mem_append.mp hc with hc | hc
  · exact h c hc
  · exact ascii_assert_ne_zero c hc

theorem eventuallyReady_alternating : EventuallyReady busy_alternating := by
  intro k
  refine ⟨2 * k + 1, by omega, ?_⟩
  show (2 * k + 1 + 1) % 2 = 0
  omega

theorem Sent.guarded_none {s s1 : Hw} {b : List CChar} (h : Sent s s1 b) :
    s1.gpio_state = s.gpio_state ∧
    ∃ evs, s1.trace = s.trace ++ evs ∧ tx_bytes evs = b ∧ gpio_writes evs = [] ∧
      writes_guarded none evs = true := by
  obtain ⟨g, evs, t, x, w, u⟩ := h
  exact ⟨g, evs, t, x, w, u none⟩

/-- C4. For every message whose body is the `n` bytes before its first NUL, on a UART whose
busy flag always clears again, `print(msg)` returns, and the bytes it stores to `tx_data`
are the `n` body bytes in order followed by the single line terminator, `n + 1` in all,
each store coming right after a read of `tx_busy` that returned zero.  The message `"AB"`
has body `'A', 'B'` and the empty message has the empty body. -/
theorem print_writes (busy : Nat → Nat) (msg : Nat → CChar) (n : Nat) (s : Hw)
    (hmsg : NulTerminated msg n) (hready : EventuallyReady busy) :
    (∃ F s1, (∀ fuel, F ≤ fuel → print busy fuel msg s = .ret () s1)
      ∧ ∃ evs, s1.trace = s.trace ++ evs
        ∧ tx_bytes evs = body msg n ++ [newline]
        ∧ (tx_bytes evs).length = n + 1
        ∧ writes_guarded none evs = true)
    ∧ (NulTerminated (cstr (ascii "AB")) 2
        ∧ body (cstr (ascii "AB")) 2 ++ [newline] = [65, 66, 10])
    ∧ (NulTerminated (cstr (ascii "")) 0 ∧ body (cstr (ascii "")) 0 ++ [newline] = [10]) := by
  refine ⟨?_, ⟨⟨by decide, by decide⟩, by decide⟩, ⟨⟨by decide, by decide⟩, by decide⟩⟩
  obtain ⟨F, s1, hs, hr⟩ := print_returns busy hready msg n s hmsg
  obtain ⟨_, evs, t, x, _, u⟩ := hs.guarded_none
  exact ⟨F, s1, hr, evs, t, x, by rw [x]; simp [body_length], u⟩

/-- Instance of C4: `print("AB")` on a UART that is busy at every other read. -/
theorem print_writes_witness :
    (NulTerminated (cstr (ascii "AB")) 2 ∧ EventuallyReady busy_alternating)
    ∧ ∃ F s1, (∀ fuel, F ≤ fuel → print busy_alternating fuel (cstr (ascii "AB")) (hw0 0) = .ret () s1)
      ∧ ∃ evs, s1.trace = (hw0 0).trace ++ evs
        ∧ tx_bytes evs = body (cstr (ascii "AB")) 2 ++ [newline]
        ∧ (tx_bytes evs).length = 2 + 1
        ∧ writes_guarded none evs = true :=
  ⟨⟨⟨by decide, by decide⟩, eventuallyReady_alternating⟩,
    (print_writes busy_alternating (cstr (ascii "AB")) 2 (hw0 0) ⟨by decide, by decide⟩
      eventuallyReady_alternating).1⟩

/-- C5. With `busy i` the value returned by the `i`-th read of `tx_busy`: if the first `k`
reads made by `uart_putc(c)` return non-zero values and the next returns zero, the call
returns after exactly those `k + 1` reads and one store, of `c`, made right after the zero
read; while only non-zero values have been read the call has stored nothing and has not
returned; no store is ever made without a zero read right before it; and if every read
returns non-zero the call never returns and never stores. -/
theorem uart_putc_polls (busy : Nat → Nat) (c : CChar) (s : Hw) :
    (∀ k, (∀ i, i < k → busy (s.busy_reads + i) ≠ 0) → busy (s.busy_reads + k) = 0 →
      ∀ fuel, k < fuel →
        uart_putc busy fuel c s
          = .ret () { gpio_state := s.gpio_state, busy_reads := s.busy_reads + k + 1,
                      trace := s.trace ++ spin_reads busy s.busy_reads k
                        ++ [.tx_busy_read 0, .tx_data_write c] })
    ∧ (∀ fuel, (∀ i, i < fuel → busy (s.busy_reads + i) ≠ 0) →
        uart_putc busy fuel c s
          = .hang { gpio_state := s.gpio_state, busy_reads := s.busy_reads + fuel,
                    trace := s.trace ++ spin_reads busy s.busy_reads fuel })
    ∧ (∀ k, tx_bytes (spin_reads busy s.busy_reads k) = [])
    ∧ (∀ fuel, ∃ evs, (uart_putc busy fuel c s).state.trace = s.trace ++ evs
        ∧ writes_guarded none evs = true
        ∧ (tx_bytes evs = [] ∨ tx_bytes evs = [c]))
    ∧ ((∀ i, busy (s.busy_reads + i) ≠ 0) →
        ∀ fuel, ∃ s1, uart_putc busy fuel c s = .hang s1
          ∧ tx_bytes s1.trace = tx_bytes s.trace) := by
  refine ⟨fun k h hz fuel hf => uart_putc_ready busy k fuel c s h hz hf,
    fun fuel h => uart_putc_stuck busy fuel c s h,
    fun k => tx_bytes_spin_reads busy _ k, ?_, ?_⟩
  · intro fuel
    obtain ⟨s1, h⟩ := uart_putc_outcome busy fuel c s
    rcases h with ⟨h1, h2⟩ | ⟨h1, h2⟩
    · obtain ⟨_, evs, t, x, _, u⟩ := h2.guarded_none
      exact ⟨evs, by rw [h1]; exact t, u, Or.inr x⟩
    · obtain ⟨_, evs, t, x, _, u⟩ := h2.guarded_none
      exact ⟨evs, by rw [h1]; exact t, u, Or.inl x⟩
  · intro h fuel
    refine ⟨_, uart_putc_stuck busy fuel c s (fun i _ => h i), ?_⟩
    simp [tx_bytes_append, tx_bytes_spin_reads]

/-- Instance of C5: one busy read, then ready; and a UART that is stuck busy. -/
theorem uart_putc_polls_witness :
    uart_putc busy_alternating 5 65 (hw0 0)
      = .ret () { gpio_state := 0, busy_reads := 2,
                  trace := [.tx_busy_read 1, .tx_busy_read 0, .tx_data_write 65] }
    ∧ ∀ fuel, ∃ s1, uart_putc busy_stuck fuel 65 (hw0 0) = .hang s1
        ∧ tx_bytes s1.trace = tx_bytes (hw0 0).trace :=
  ⟨(uart_putc_polls busy_alternating 65 (hw0 0)).1 1 (by decide) (by decide) 5 (by decide),
   (uart_putc_polls busy_stuck 65 (hw0 0)).2.2.2.2 (fun _ => Nat.one_ne_zero)⟩
/-- On a UART that is busy at every read, `print` of a non-empty message never gets to
store a byte. -/
theorem print_stuck (busy : Nat → Nat) (hbusy : ∀ i, busy i ≠ 0) (msg : Nat → CChar)
    (h0 : msg 0 ≠ 0) (fuel : Nat) (s : Hw) :
    ∃ s1, print busy fuel msg s = .hang s1 ∧ tx_bytes s1.trace = tx_bytes s.trace := by
  cases fuel with
  | zero => exact ⟨s, rfl, rfl⟩
  | succ k =>
    refine ⟨{ gpio_state := s.gpio_state, busy_reads := s.busy_reads + (k + 1),
              trace := s.trace ++ spin_reads busy s.busy_reads (k + 1) }, ?_, ?_⟩
    · rw [print, print_loop]
      simp only [h0, ne_eq, not_false_eq_true, if_true]
      rw [uart_putc_stuck busy (k + 1) (msg 0) s (fun i _ => hbusy _)]
      rfl
    · simp [tx_bytes_append, tx_bytes_spin_reads]

theorem assert_failed_eq (busy : Nat → Nat) (fuel : Nat) (msg : Nat → CChar) (s : Hw) :
    _assert busy fuel 0 msg s = (print busy fuel msg s).bind fun _ s1 => .hang s1 := by
  simp only [_assert, if_true]
  congr 1
  funext _ s1
  exact halt_forever_hang fuel s1

theorem gpio_set_state_failed_eq (cfg : Bsp) (busy : Nat → Nat) (fuel offset : Nat)
    (high : Bool) (s : Hw) (hoff : 32 ≤ offset) :
    gpio_set_state cfg busy fuel offset high s
      = .hang (_assert busy fuel 0 (cstr (assert_text cfg)) s).state := by
  have hlt : ¬ offset < 32 := by omega
  rw [gpio_set_state, all_ones_but_one]
  simp only [hlt, if_false]
  rw [assert_failed_eq]
  cases print busy fuel (cstr (assert_text cfg)) s <;> rfl

/-- C9, counterexample. On a UART whose busy flag never clears, `_assert(0, "A")` never
transmits anything, however long one waits, although the message and line terminator are
the two bytes `'A', '\n'`. -/
theorem assert_stuck_uart_counterexample :
    NulTerminated (cstr (ascii "A")) 1
    ∧ body (cstr (ascii "A")) 1 ++ [newline] = [65, 10]
    ∧ (∀ fuel, ∃ s1, _assert busy_stuck fuel 0 (cstr (ascii "A")) (hw0 0) = .hang s1
        ∧ tx_bytes s1.trace = []) := by
  refine ⟨⟨by decide, by decide⟩, by decide, fun fuel => ?_⟩
  obtain ⟨s1, h, ht⟩ := print_stuck busy_stuck (fun _ => Nat.one_ne_zero) (cstr (ascii "A"))
    (by decide) fuel (hw0 0)
  exact ⟨s1, by rw [assert_failed_eq, h]; rfl, ht⟩

/-- C9, amended. For every condition value `x` and NUL-terminated message: if `x` is
non-zero `_assert` returns without any register access; if `x` is zero it never returns and
never stores to the GPIO register, the bytes it has stored to the UART being at any time a
leading part of the message followed by the line terminator; and when the UART busy flag
always clears again, `print` returns having transmitted the whole message and the line
terminator, after which `_assert` stays in `while(true) {}` for ever. -/
theorem assert_fatal (busy : Nat → Nat) (x : Int) (msg : Nat → CChar) (n : Nat) (s : Hw)
    (hmsg : NulTerminated msg n) :
    (x ≠ 0 → ∀ fuel, _assert busy fuel x msg s = .ret () s)
    ∧ (x = 0 →
        (∀ fuel, ∃ s1, _assert busy fuel x msg s = .hang s1
          ∧ s1.gpio_state = s.gpio_state
          ∧ ∃ evs rest, s1.trace = s.trace ++ evs ∧ gpio_writes evs = []
            ∧ tx_bytes evs ++ rest = body msg n ++ [newline])
        ∧ (EventuallyReady busy →
            ∃ F s1,
              (∀ fuel, F ≤ fuel →
                print busy fuel msg s = .ret () s1 ∧ _assert busy fuel x msg s = .hang s1)
              ∧ s1.gpio_state = s.gpio_state
              ∧ ∃ evs, s1.trace = s.trace ++ evs ∧ gpio_writes evs = []
                ∧ tx_bytes evs = body msg n ++ [newline])) := by
  refine ⟨fun hx fuel => by simp [_assert, hx], ?_⟩
  rintro rfl
  refine ⟨fun fuel => ?_, fun hready => ?_⟩
  · obtain ⟨s1, bytes, rest, h, hs, hb⟩ := assert_zero_outcome busy fuel msg n s hmsg
    obtain ⟨g, evs, t, x, w, _⟩ := hs
    exact ⟨s1, h, g, evs, rest, t, w, by rw [x]; exact hb⟩
  · obtain ⟨F, s1, hs, hr⟩ := assert_zero_sends busy hready msg n s hmsg
    obtain ⟨g, evs, t, x, w, _⟩ := hs
    exact ⟨F, s1, hr, g, evs, t, w, x⟩

/-- Instance of the amended C9: a failed assertion with message `"A"` on a UART that is busy
at every other read. -/
theorem assert_fatal_witness :
    (NulTerminated (cstr (ascii "A")) 1 ∧ EventuallyReady busy_alternating)
    ∧ ∃ F s1,
        (∀ fuel, F ≤ fuel →
          print busy_alternating fuel (cstr (ascii "A")) (hw0 0) = .ret () s1
          ∧ _assert busy_alternating fuel 0 (cstr (ascii "A")) (hw0 0) = .hang s1)
        ∧ s1.gpio_state = (hw0 0).gpio_state
        ∧ ∃ evs, s1.trace = (hw0 0).trace ++ evs ∧ gpio_writes evs = []
          ∧ tx_bytes evs = body (cstr (ascii "A")) 1 ++ [newline] :=
  ⟨⟨⟨by decide, by decide⟩, eventuallyReady_alternating⟩,
    ((assert_fatal busy_alternating 0 (cstr (ascii "A")) 1 (hw0 0)
      ⟨by decide, by decide⟩).2 rfl).2 eventuallyReady_alternating⟩

set_option maxRecDepth 100000 in
/-- C3, counterexample. On a UART whose busy flag never clears, `gpio_set_state(32, true)`
never transmits any byte of the assertion diagnostic, however long one waits. -/
theorem gpio_set_state_stuck_uart_counterexample :
    32 ≤ 32
    ∧ (∀ c ∈ demo_bsp.file, c ≠ 0)
    ∧ assert_text demo_bsp ++ [newline] ≠ []
    ∧ (∀ fuel, ∃ s1, gpio_set_state demo_bsp busy_stuck fuel 32 true (hw0 0) = .hang s1
        ∧ tx_bytes s1.trace = []) := by
  refine ⟨le_refl 32, by decide, by simp, fun fuel => ?_⟩
  obtain ⟨s1, h, ht⟩ := print_stuck busy_stuck (fun _ => Nat.one_ne_zero)
    (cstr (assert_text demo_bsp)) (by decide) fuel (hw0 0)
  refine ⟨s1, ?_, ht⟩
  rw [gpio_set_state_failed_eq _ _ _ _ _ _ (le_refl 32), assert_failed_eq, h]
  rfl

/-- C3, amended. For every offset of 32 or more and every `high`, `gpio_set_state` takes the
fatal-assert path: it never returns and never stores to the GPIO register, whose value
stays equal to the prior value, and the bytes it has stored to the UART are at any time a
leading part of the assertion diagnostic followed by the line terminator; when the UART
busy flag always clears again, the whole diagnostic and the line terminator are sent and
execution then halts for ever. -/
theorem gpio_set_state_out_of_range (cfg : Bsp) (busy : Nat → Nat) (offset : Nat)
    (high : Bool) (s : Hw) (hoff : 32 ≤ offset) (hfile : ∀ c ∈ cfg.file, c ≠ 0) :
    (∀ fuel, ∃ s1, gpio_set_state cfg busy fuel offset high s = .hang s1
      ∧ s1.gpio_state = s.gpio_state
      ∧ ∃ evs rest, s1.trace = s.trace ++ evs ∧ gpio_writes evs = []
        ∧ tx_bytes evs ++ rest = assert_text cfg ++ [newline])
    ∧ (EventuallyReady busy →
        ∃ F s1, (∀ fuel, F ≤ fuel → gpio_set_state cfg busy fuel offset high s = .hang s1)
          ∧ s1.gpio_state = s.gpio_state
          ∧ ∃ evs, s1.trace = s.trace ++ evs ∧ gpio_writes evs = []
            ∧ tx_bytes evs = assert_text cfg ++ [newline]) := by
  have hmsg := cstr_nulTerminated (assert_text cfg) (assert_text_ne_zero cfg hfile)
  refine ⟨fun fuel => ?_, fun hready => ?_⟩
  · obtain ⟨s1, bytes, rest, h, hs, hb⟩ :=
      assert_zero_outcome busy fuel (cstr (assert_text cfg)) _ s hmsg
    obtain ⟨g, evs, t, x, w, _⟩ := hs
    refine ⟨s1, ?_, g, evs, rest, t, w, ?_⟩
    · rw [gpio_set_state_failed_eq _ _ _ _ _ _ hoff, h]; rfl
    · rw [x, hb, body_cstr]
  · obtain ⟨F, s1, hs, hr⟩ :=
      assert_zero_sends busy hready (cstr (assert_text cfg)) _ s hmsg
    obtain ⟨g, evs, t, x, w, _⟩ := hs
    refine ⟨F, s1, fun fuel hf => ?_, g, evs, t, w, ?_⟩
    · rw [gpio_set_state_failed_eq _ _ _ _ _ _ hoff, (hr fuel hf).2]; rfl
    · rw [x, body_cstr]

set_option maxRecDepth 100000 in
/-- Instance of the amended C3: offset 32 on a UART that is busy at every other read. -/
theorem gpio_set_state_out_of_range_witness :
    (32 ≤ 32 ∧ (∀ c ∈ demo_bsp.file, c ≠ 0) ∧ EventuallyReady busy_alternating)
    ∧ ∃ F s1,
        (∀ fuel, F ≤ fuel →
          gpio_set_state demo_bsp busy_alternating fuel 32 true (hw0 5) = .hang s1)
        ∧ s1.gpio_state = (hw0 5).gpio_state
        ∧ ∃ evs, s1.trace = (hw0 5).trace ++ evs ∧ gpio_writes evs = []
          ∧ tx_bytes evs = assert_text demo_bsp ++ [newline] :=
  ⟨⟨le_refl 32, by decide, eventuallyReady_alternating⟩,
    (gpio_set_state_out_of_range demo_bsp busy_alternating 32 true (hw0 5) (le_refl 32)
      (by decide)).2 eventuallyReady_alternating⟩
/-! ## The application loop -/

theorem main_call_sleep_iff (p ms : Nat) (hp : p < 6) :
    main_call p = .sleep ms ↔ (ms = 1000 ∧ p % 3 = 2) := by
  interval_cases p <;> simp [main_call, sleep_time_ms, eq_comm]

theorem main_step_sleep (cfg : Bsp) (busy : Nat → Nat) (fuel : Nat) (st : MainState)
    (ms : Nat) (h : main_call st.pc = .sleep ms) :
    main_step cfg busy fuel st = some { pc := (st.pc + 1) % 6, hw := st.hw } := by
  simp [main_step, h, exec_call]

theorem main_step_led (cfg : Bsp) (busy : Nat → Nat) (fuel : Nat) (st : MainState)
    (o : Nat) (high : Bool)
    (h : exec_call cfg busy fuel (main_call st.pc) st.hw
      = gpio_set_state cfg busy fuel o high st.hw)
    (ho : o < 32) (hw : st.hw.gpio_state < 2 ^ 32) :
    ∃ st1, main_step cfg busy fuel st = some st1 ∧ st1.pc = (st.pc + 1) % 6
      ∧ st1.hw.gpio_state < 2 ^ 32
      ∧ ∀ i, st1.hw.gpio_state.testBit i
          = if i = o then high else st.hw.gpio_state.testBit i := by
  obtain ⟨v, e, lv, bv⟩ := gpio_set_state_ret cfg busy fuel o high st.hw ho hw
  refine ⟨{ pc := (st.pc + 1) % 6,
            hw := { st.hw with gpio_state := v,
                               trace := st.hw.trace ++ [.gpio_state_write v] } }, ?_, rfl, lv, bv⟩
  simp [main_step, h, e]

/-- The state of `main` after any number of calls: it exists, and the LED bits are as the
calls made so far in the current pass of the loop body leave them. -/
theorem main_run_inv (cfg : Bsp) (busy : Nat → Nat) (fuel : Nat) (s : Hw)
    (hg : cfg.led_g < 32) (hr : cfg.led_r < 32) (hne : cfg.led_g ≠ cfg.led_r)
    (hw : s.gpio_state < 2 ^ 32) (n : Nat) :
    ∃ st, main_run cfg busy fuel n s = some st
      ∧ st.pc = n % 6
      ∧ st.hw.gpio_state < 2 ^ 32
      ∧ (∀ i, i ≠ cfg.led_g → i ≠ cfg.led_r →
          st.hw.gpio_state.testBit i = s.gpio_state.testBit i)
      ∧ (n % 6 = 1 ∨ n % 6 = 2 ∨ n % 6 = 3 → st.hw.gpio_state.testBit cfg.led_g = true)
      ∧ (n % 6 = 2 ∨ n % 6 = 3 → st.hw.gpio_state.testBit cfg.led_r = false)
      ∧ (n % 6 = 4 ∨ n % 6 = 5 → st.hw.gpio_state.testBit cfg.led_r = true)
      ∧ (n % 6 = 5 → st.hw.gpio_state.testBit cfg.led_g = false) := by
  have hne2 : cfg.led_r ≠ cfg.led_g := fun h => hne h.symm
  induction n with
  | zero =>
    exact ⟨{ pc := 0, hw := s }, rfl, rfl, hw, fun _ _ _ => rfl,
      by omega, by omega, by omega, by omega⟩
  | succ n ih =>
    obtain ⟨st, hrun, hpc, hlt, hfr, h1, h2, h3, h4⟩ := ih
    have hrun' : main_run cfg busy fuel (n + 1) s = main_step cfg busy fuel st := by
      rw [main_run, hrun]; rfl
    rw [hrun']
    have hcases : n % 6 = 0 ∨ n % 6 = 1 ∨ n % 6 = 2 ∨ n % 6 = 3 ∨ n % 6 = 4 ∨ n % 6 = 5 := by
      omega
    rcases hcases with hc | hc | hc | hc | hc | hc
    · -- enable_green_led
      obtain ⟨st1, e, p1, l1, b1⟩ := main_step_led cfg busy fuel st cfg.led_g true
        (by rw [hpc, hc]; rfl) hg hlt
      refine ⟨st1, e, by rw [p1, hpc]; omega, l1, ?_, ?_, ?_, ?_, ?_⟩
      · intro i hi1 hi2; rw [b1 i, if_neg hi1]; exact hfr i hi1 hi2
      · intro _; rw [b1]; simp
      · intro h; omega
      · intro h; omega
      · intro h; omega
    · -- disable_red_led
      obtain ⟨st1, e, p1, l1, b1⟩ := main_step_led cfg busy fuel st cfg.led_r false
        (by rw [hpc, hc]; rfl) hr hlt
      refine ⟨st1, e, by rw [p1, hpc]; omega, l1, ?_, ?_, ?_, ?_, ?_⟩
      · intro i hi1 hi2; rw [b1 i, if_neg hi2]; exact hfr i hi1 hi2
      · intro _; rw [b1, if_neg hne]; exact h1 (Or.inl hc)
      · intro _; rw [b1]; simp
      · intro h; omega
      · intro h; omega
    · -- sleep
      have e := main_step_sleep cfg busy fuel st sleep_time_ms (by rw [hpc, hc]; rfl)
      refine ⟨_, e, by show (st.pc + 1) % 6 = _; rw [hpc]; omega, hlt, hfr, ?_, ?_, ?_, ?_⟩
      · intro _; exact h1 (Or.inr (Or.inl hc))
      · intro _; exact h2 (Or.inl hc)
      · intro h; omega
      · intro h; omega
    · -- enable_red_led
      obtain ⟨st1, e, p1, l1, b1⟩ := main_step_led cfg busy fuel st cfg.led_r true
        (by rw [hpc, hc]; rfl) hr hlt
      refine ⟨st1, e, by rw [p1, hpc]; omega, l1, ?_, ?_, ?_, ?_, ?_⟩
      · intro i hi1 hi2; rw [b1 i, if_neg hi2]; exact hfr i hi1 hi2
      · intro h; omega
      · intro h; omega
      · intro _; rw [b1]; simp
      · intro h; omega
    · -- disable_green_led
      obtain ⟨st1, e, p1, l1, b1⟩ := main_step_led cfg busy fuel st cfg.led_g false
        (by rw [hpc, hc]; rfl) hg hlt
      refine ⟨st1, e, by rw [p1, hpc]; omega, l1, ?_, ?_, ?_, ?_, ?_⟩
      · intro i hi1 hi2; rw [b1 i, if_neg hi1]; exact hfr i hi1 hi2
      · intro h; omega
      · intro h; omega
      · intro _; rw [b1, if_neg hne2]; exact h3 (Or.inl hc)
      · intro _; rw [b1]; simp
    · -- sleep
      have e := main_step_sleep cfg busy fuel st sleep_time_ms (by rw [hpc, hc]; rfl)
      refine ⟨_, e, by show (st.pc + 1) % 6 = _; rw [hpc]; omega, hlt, hfr, ?_, ?_, ?_, ?_⟩
      · intro h; omega
      · intro h; omega
      · intro h; omega
      · intro h; omega

/-- C8. With distinct LED offsets below 32 and any 32-bit initial register value, `main`
as a step system over the calls of its loop: after any number of calls there is a state and
a next step (no terminal state), every bit other than the two LED bits has its initial
value, and the call about to be made is a `sleep` exactly when the number of calls made is
2 modulo 3, always with argument 1000.  The `k`-th call of `sleep`, counting from 0, is made
after `3 * k + 2` calls; the register is then GREEN_ON_RED_OFF when `k` is even (the first
sleep) and RED_ON_GREEN_OFF when `k` is odd (the second), alternating for ever. -/
theorem main_blinks_forever (cfg : Bsp) (busy : Nat → Nat) (fuel : Nat) (s : Hw)
    (hg : cfg.led_g < 32) (hr : cfg.led_r < 32) (hne : cfg.led_g ≠ cfg.led_r)
    (hw : s.gpio_state < 2 ^ 32) :
    (∀ n, ∃ st, main_run cfg busy fuel n s = some st
      ∧ st.pc = n % 6
      ∧ (main_step cfg busy fuel st).isSome = true
      ∧ (∀ i, i ≠ cfg.led_g → i ≠ cfg.led_r →
          st.hw.gpio_state.testBit i = s.gpio_state.testBit i)
      ∧ (∀ ms, main_call st.pc = .sleep ms ↔ (ms = 1000 ∧ n % 3 = 2)))
    ∧ (∀ k, ∃ st, main_run cfg busy fuel (3 * k + 2) s = some st
      ∧ main_call st.pc = .sleep 1000
      ∧ (k % 2 = 0 → GREEN_ON_RED_OFF cfg st.hw.gpio_state)
      ∧ (k % 2 = 1 → RED_ON_GREEN_OFF cfg st.hw.gpio_state)) := by
  refine ⟨fun n => ?_, fun k => ?_⟩
  · obtain ⟨st, hrun, hpc, _, hfr, _⟩ := main_run_inv cfg busy fuel s hg hr hne hw n
    obtain ⟨st1, hrun1, _⟩ := main_run_inv cfg busy fuel s hg hr hne hw (n + 1)
    refine ⟨st, hrun, hpc, ?_, hfr, ?_⟩
    · have : main_run cfg busy fuel (n + 1) s = main_step cfg busy fuel st := by
        rw [main_run, hrun]; rfl
      rw [← this, hrun1]; rfl
    · intro ms
      rw [hpc, main_call_sleep_iff _ ms (Nat.mod_lt _ (by decide))]
      have : n % 6 % 3 = n % 3 := by omega
      rw [this]
  · obtain ⟨st, hrun, hpc, _, _, h1, h2, h3, h4⟩ :=
      main_run_inv cfg busy fuel s hg hr hne hw (3 * k + 2)
    refine ⟨st, hrun, ?_, ?_, ?_⟩
    · rw [main_call_sleep_iff _ _ (by rw [hpc]; exact Nat.mod_lt _ (by decide))]
      exact ⟨rfl, by rw [hpc]; omega⟩
    · intro hk
      have : (3 * k + 2) % 6 = 2 := by omega
      exact ⟨h1 (Or.inr (Or.inl this)), h2 (Or.inl this)⟩
    · intro hk
      have : (3 * k + 2) % 6 = 5 := by omega
      exact ⟨h4 this, h3 (Or.inr this)⟩

/-- Instance of C8 on a board with green on bit 0 and red on bit 1, starting from the
register value 8 with the UART stuck busy. -/
theorem main_blinks_forever_witness :
    (demo_bsp.led_g < 32 ∧ demo_bsp.led_r < 32 ∧ demo_bsp.led_g ≠ demo_bsp.led_r
      ∧ (hw0 8).gpio_state < 2 ^ 32)
    ∧ (∀ n, ∃ st, main_run demo_bsp busy_stuck 0 n (hw0 8) = some st
      ∧ st.pc = n % 6
      ∧ (main_step demo_bsp busy_stuck 0 st).isSome = true
      ∧ (∀ i, i ≠ demo_bsp.led_g → i ≠ demo_bsp.led_r →
          st.hw.gpio_state.testBit i = (hw0 8).gpio_state.testBit i)
      ∧ (∀ ms, main_call st.pc = .sleep ms ↔ (ms = 1000 ∧ n % 3 = 2)))
    ∧ (∀ k, ∃ st, main_run demo_bsp busy_stuck 0 (3 * k + 2) (hw0 8) = some st
      ∧ main_call st.pc = .sleep 1000
      ∧ (k % 2 = 0 → GREEN_ON_RED_OFF demo_bsp st.hw.gpio_state)
      ∧ (k % 2 = 1 → RED_ON_GREEN_OFF demo_bsp st.hw.gpio_state)) :=
  ⟨⟨by decide, by decide, by decide, by decide⟩,
    main_blinks_forever demo_bsp busy_stuck 0 (hw0 8) (by decide) (by decide) (by decide)
      (by decide)⟩
end Mtkcpu
